import Mathlib

/-!
Verification of the nocc distributed-compilation system against its
specification.  Go source functions are shallowly embedded as executable
Lean definitions; machine integers are modelled as `Nat` with explicit
reductions modulo powers of two where the Go code can overflow.
-/

/-! ## SHA256 value struct (internal/common/sha256-struct.go)

The Go struct holds four `uint64` segments; we model each segment as a `Nat`
that is kept below `2 ^ 64` by every producing operation. -/

structure SHA256 where
  B0_7 : Nat
  B8_15 : Nat
  B16_23 : Nat
  B24_31 : Nat
deriving DecidableEq, Repr

/-- `SHA256.IsEmpty` from sha256-struct.go: all four segments are zero. -/
def SHA256.IsEmpty (h : SHA256) : Bool :=
  h.B0_7 == 0 && h.B8_15 == 0 && h.B16_23 == 0 && h.B24_31 == 0

/-- `SHA256.XorWith` from sha256-struct.go: segment-wise xor. -/
def SHA256.XorWith (h other : SHA256) : SHA256 :=
  ⟨Nat.xor h.B0_7 other.B0_7, Nat.xor h.B8_15 other.B8_15,
   Nat.xor h.B16_23 other.B16_23, Nat.xor h.B24_31 other.B24_31⟩

/-! ## Hex printing and parsing (`ToLongHexString` / `FromLongHexString`)

Go prints each segment with `fmt.Sprintf("%x", seg)`: minimal lowercase hex
digits.  Parsing uses `fmt.Sscanf(hex, "%x-%x-%x-%x", ...)`: each item is a
maximal nonempty run of hex digits whose value must fit in a `uint64`,
separated by literal dashes; if fewer than four items are assigned the
receiver is reset to the zero value. -/

def hexDigitChar (n : Nat) : Char :=
  if n < 10 then Char.ofNat (48 + n) else Char.ofNat (87 + n)

def toHexAux : Nat → List Char → List Char
  | 0, acc => acc
  | n + 1, acc => toHexAux ((n + 1) / 16) (hexDigitChar ((n + 1) % 16) :: acc)
decreasing_by exact Nat.div_lt_self (Nat.succ_pos n) (by decide)

/-- Minimal lowercase hex digits of `n`, as `%x` prints a `uint64`. -/
def toHexChars (n : Nat) : List Char :=
  if n = 0 then ['0'] else toHexAux n []

/-- Number of hex digits `toHexAux` produces. -/
def hexLen : Nat → Nat
  | 0 => 0
  | n + 1 => hexLen ((n + 1) / 16) + 1
decreasing_by exact Nat.div_lt_self (Nat.succ_pos n) (by decide)

/-- `SHA256.ToLongHexString` from sha256-struct.go, over character lists. -/
def SHA256.ToLongHexString (h : SHA256) : List Char :=
  toHexChars h.B0_7 ++ '-' :: (toHexChars h.B8_15 ++ '-' ::
    (toHexChars h.B16_23 ++ '-' :: toHexChars h.B24_31))

def isHexDigit (c : Char) : Bool :=
  (decide ('0' ≤ c) && decide (c ≤ '9')) ||
  (decide ('a' ≤ c) && decide (c ≤ 'f')) ||
  (decide ('A' ≤ c) && decide (c ≤ 'F'))

def hexVal (c : Char) : Nat :=
  if c ≤ '9' then c.toNat - 48 else if c ≤ 'F' then c.toNat - 55 else c.toNat - 87

/-- Accumulate the value of a leading run of hex digits; stops at the first
non-hex character and returns the remaining input. -/
def parseHexAux : List Char → Nat → Nat × List Char
  | [], acc => (acc, [])
  | c :: cs, acc =>
    if isHexDigit c then parseHexAux cs (acc * 16 + hexVal c) else (acc, c :: cs)

/-- One `%x` item scanned into a `uint64`: a nonempty run of hex digits whose
value fits in 64 bits. -/
def parseHexItem (s : List Char) : Option (Nat × List Char) :=
  match s with
  | [] => none
  | c :: cs =>
    if isHexDigit c then
      let (v, rest) := parseHexAux cs (hexVal c)
      if v < 2 ^ 64 then some (v, rest) else none
    else none

/-- The literal `-` of the scan format. -/
def expectDash : List Char → Option (List Char)
  | '-' :: rest => some rest
  | _ => none

/-- The four `%x-%x-%x-%x` items of `FromLongHexString`; trailing input after
the fourth item is ignored, exactly as `Sscanf` leaves it unread. -/
def parseFourHex (s : List Char) : Option (Nat × Nat × Nat × Nat) := do
  let (a, r1) ← parseHexItem s
  let r2 ← expectDash r1
  let (b, r3) ← parseHexItem r2
  let r4 ← expectDash r3
  let (c, r5) ← parseHexItem r4
  let r6 ← expectDash r5
  let (d, _) ← parseHexItem r6
  pure (a, b, c, d)

/-- `SHA256.FromLongHexString` from sha256-struct.go: on a full parse the four
segments are assigned; otherwise (`n != 4`) the receiver becomes the zero
value. -/
def SHA256.FromLongHexString (s : List Char) : SHA256 :=
  match parseFourHex s with
  | some (a, b, c, d) => ⟨a, b, c, d⟩
  | none => ⟨0, 0, 0, 0⟩

/-! ## UTF-8 bytes of a Go string -/

/-- The UTF-8 encoding of one character, as Go produces with `[]byte(s)`. -/
def utf8EncodeCharNat (c : Char) : List Nat :=
  let n := c.toNat
  if n < 128 then [n]
  else if n < 2048 then [192 + n / 64, 128 + n % 64]
  else if n < 65536 then [224 + n / 4096, 128 + n / 64 % 64, 128 + n % 64]
  else [240 + n / 262144, 128 + n / 4096 % 64, 128 + n / 64 % 64, 128 + n % 64]

/-- `[]byte(s)` for a Go string. -/
def utf8Bytes (s : String) : List Nat :=
  s.data.flatMap utf8EncodeCharNat

/-! ## FNV-1a and worker selection (internal/client/daemon.go) -/

/-- `hash/fnv` 32-bit FNV-1a over a byte sequence: start from the offset
basis, xor each byte in, multiply by the prime modulo `2 ^ 32`. -/
def fnv1a32 (bytes : List Nat) : Nat :=
  bytes.foldl (fun h b => Nat.xor h b * 16777619 % 4294967296) 2166136261

/-- `filepath.Base` (unix): empty input gives `"."`; trailing slashes are
dropped; everything up to the last slash is dropped; an all-slash input gives
`"/"`. -/
def goBaseChars (s : List Char) : List Char :=
  if s = [] then ['.']
  else
    let t := (s.reverse.dropWhile (fun c => c = '/')).reverse
    let u := (t.reverse.takeWhile (fun c => c ≠ '/')).reverse
    if u = [] then ['/'] else u

def goBase (s : String) : String :=
  ⟨goBaseChars s.data⟩

/-- The index computed by `Daemon.chooseRemoteConnectionForCppCompilation`:
`int(hasher.Sum32()) % len(daemon.remoteConnections)`.  `Sum32` is below
`2 ^ 32`, so the Go `int` conversion is exact and `%` on the nonnegative
`int` agrees with `Nat` mod. -/
def chooseRemoteIndex (numWorkers : Nat) (cppInFile : String) : Nat :=
  fnv1a32 (utf8Bytes (goBase cppInFile)) % numWorkers

/-- `Daemon.chooseRemoteConnectionForCppCompilation` from daemon.go for a
nonempty worker list. -/
def chooseRemoteConnectionForCppCompilation {α : Type} (workers : List α)
    (hw : workers ≠ []) (cppInFile : String) : α :=
  workers.get ⟨chooseRemoteIndex workers.length cppInFile,
    Nat.mod_lt _ (List.length_pos.mpr hw)⟩

/-! ## Object delivery stream (nocc-server.go `RecvCompiledObjStream`,
`sendObjFileByChunks` in the server chunk-transfer file)

A reply message mirrors `pb.RecvCompiledObjChunkReply`; absent proto fields
keep their zero values. -/

structure RecvCompiledObjChunkReply where
  sessionID : Nat
  compilerExitCode : Int := 0
  compilerStdout : List Nat := []
  compilerStderr : List Nat := []
  compilerDuration : Int := 0
  fileSize : Nat := 0
  chunkBody : List Nat := []
deriving DecidableEq, Repr

/-- A worker session that reached `chanReadySessions`, with the fields read
by the object-delivery loop.  The object-file content stands for what
`os.Open(session.OutputFile)` would read. -/
structure ReadySession where
  sessionID : Nat
  compilerExitCode : Int
  compilerStdout : List Nat
  compilerStderr : List Nat
  compilerDuration : Int
  objFileContent : List Nat
deriving DecidableEq, Repr

/-- Chunked reading, fuel-indexed so that it is structurally recursive: for
`0 < k` and fuel at least the list length this computes the successive reads
of a file through a buffer of `k` bytes. -/
def chunksOfFuel {α : Type} (k : Nat) : Nat → List α → List (List α)
  | 0, _ => []
  | _ + 1, [] => []
  | fuel + 1, x :: xs =>
    if k = 0 then []
    else (x :: xs).take k :: chunksOfFuel k fuel ((x :: xs).drop k)

/-- Successive reads of a file through a buffer of `k` bytes: full chunks
followed by a final partial chunk; a read returning zero bytes is `io.EOF`
and produces no chunk. -/
def chunksOf {α : Type} (k : Nat) (l : List α) : List (List α) :=
  chunksOfFuel k l.length l

/-- `sendObjFileByChunks`: one header reply carrying exit code, outputs,
duration and `stat.Size()`, then one body reply per 64 KiB read. -/
def sendObjFileByChunks (session : ReadySession) : List RecvCompiledObjChunkReply :=
  { sessionID := session.sessionID
    compilerExitCode := session.compilerExitCode
    compilerStdout := session.compilerStdout
    compilerStderr := session.compilerStderr
    compilerDuration := session.compilerDuration
    fileSize := session.objFileContent.length } ::
  (chunksOf 65536 session.objFileContent).map
    (fun body => { sessionID := session.sessionID, chunkBody := body })

/-- The replies `RecvCompiledObjStream` sends for one ready session: for a
non-zero exit code a single header without file size or body; otherwise
`sendObjFileByChunks`. -/
def recvCompiledObjStreamReplies (session : ReadySession) : List RecvCompiledObjChunkReply :=
  if session.compilerExitCode ≠ 0 then
    [{ sessionID := session.sessionID
       compilerExitCode := session.compilerExitCode
       compilerStdout := session.compilerStdout
       compilerStderr := session.compilerStderr
       compilerDuration := session.compilerDuration }]
  else
    sendObjFileByChunks session

/-! ## Compilation-start flag (session.go `LaunchCompilerWhenPossible`,
nocc-server.go `StartCompilationSession`)

`compilationStarted` is an `atomic.Int32`.  The object-cache-hit path in
`StartCompilationSession` performs `Store(1)`; every readiness sweep
eventually reaches `compilationStarted.Swap(1)` and runs the compiler only
when the swapped-out value was zero.  Atomicity of both operations
linearizes any interleaving into a sequence of events. -/

inductive SessionEvent where
  | objCacheHitStore
  | readinessSweepSwap
deriving DecidableEq, Repr

structure CompilationFlagState where
  compilationStarted : Nat
  compilerLaunches : Nat
deriving DecidableEq, Repr

/-- One linearized event: the hit path stores 1; a sweep swaps 1 in and
launches the compiler exactly when the old value was 0. -/
def stepCompilationFlag (st : CompilationFlagState) : SessionEvent → CompilationFlagState
  | .objCacheHitStore => { st with compilationStarted := 1 }
  | .readinessSweepSwap =>
    { compilationStarted := 1
      compilerLaunches :=
        if st.compilationStarted = 0 then st.compilerLaunches + 1 else st.compilerLaunches }

/-- A fresh session has `compilationStarted = 0` and no launches; events are
applied in linearization order. -/
def runCompilationFlag (events : List SessionEvent) : CompilationFlagState :=
  events.foldl stepCompilationFlag ⟨0, 0⟩

/-! ## Saving a compiled object into the object cache
(session.go `LaunchCompilerWhenPossible`, lines after the compiler returns)

The live call path `StartCompilationSession → launchCompilerOnServerOnReadySessions
→ StartCompilingObjIfPossible → session.LaunchCompilerWhenPossible` guards the
save with `!objCacheKey.IsEmpty()`, `compilerExitCode == 0` and a successful
`os.Stat` of the output file — and with nothing else. -/

/-- Worker session fields consulted by the save-to-obj-cache step;
`outputFileStatOk` stands for `os.Stat(session.OutputFile)` succeeding. -/
structure CompiledSession where
  objCacheKey : SHA256
  compilerExitCode : Int
  compilerStdout : List Nat
  compilerStderr : List Nat
  outputFileStatOk : Bool
  outputFile : String
deriving DecidableEq, Repr

def ObjCache : Type := List (SHA256 × String)

def lookupInCache (cache : ObjCache) (key : SHA256) : Option String :=
  match cache.find? (fun e => e.1 = key) with
  | some e => some e.2
  | none => none

/-- Modelled from the spec: `FileCache.SaveFileToCache` — "hard-link into the
cache under the sha; no-op if already present" (§4.12); the cache body is not
under src/. -/
def SaveFileToCache (cache : ObjCache) (key : SHA256) (value : String) : ObjCache :=
  match lookupInCache cache key with
  | some _ => cache
  | none => (key, value) :: cache

/-- The post-compilation save step of `session.LaunchCompilerWhenPossible`
(session.go): nested guards exactly as in the source. -/
def saveObjAfterCompilation (cache : ObjCache) (s : CompiledSession) : ObjCache :=
  if ¬ s.objCacheKey.IsEmpty then
    if s.compilerExitCode = 0 then
      if s.outputFileStatOk then SaveFileToCache cache s.objCacheKey s.outputFile
      else cache
    else cache
  else cache

/-- The save condition as the claim states it: zero exit code and empty
stdout and stderr (and a non-empty key).  Kept separate from the source
translation for comparison. -/
def claimObjCacheSaveCondition (s : CompiledSession) : Bool :=
  ¬ s.objCacheKey.IsEmpty && s.compilerExitCode == 0 &&
    s.compilerStdout.isEmpty && s.compilerStderr.isEmpty

/-! ## Session creation on the worker (session.go `CreateNewSession`)

`CreateNewSession` registers every advertised dependency (and the optional
pch file) through `client.StartUsingFileInSession` and propagates its error,
in which case `StartCompilationSession` rejects the session before
registering it. -/

/-- `pb.FileMetadata`: client path, size and sha256 of one dependency. -/
structure FileMetadata where
  fileName : String
  fileSize : Int
  sha : SHA256
deriving DecidableEq, Repr

/-- The per-client path registry: one sha per client path. -/
def ClientFiles : Type := List (String × SHA256)

def lookupClientFile (files : ClientFiles) (name : String) : Option SHA256 :=
  match files.find? (fun e => e.1 = name) with
  | some e => some e.2
  | none => none

/-- Modelled from the spec: `Client.StartUsingFileInSession` (the client
registry file is not under src/).  Per §3 ("a sha mismatch for a path that
already has a known sha is a hard error (session rejection)"), §4.8 step 1,
and the comment above `startUsingFileInSession` in session.go: a path already
registered with a different sha is an error; a matching sha reuses the entry;
a new path is registered. -/
def StartUsingFileInSession (files : ClientFiles) (name : String) (sha : SHA256) :
    Except String ClientFiles :=
  match lookupClientFile files name with
  | some prev => if prev = sha then .ok files else .error "sha mismatch"
  | none => .ok ((name, sha) :: files)

def registerRequiredFiles (files : ClientFiles) :
    List FileMetadata → Except String ClientFiles
  | [] => .ok files
  | meta :: rest =>
    match StartUsingFileInSession files meta.fileName meta.sha with
    | .ok files2 => registerRequiredFiles files2 rest
    | .error e => .error e

/-- `CreateNewSession` from session.go, reduced to its success/failure and
its effect on the client's path registry: each required file is registered in
order, then the optional pch file; the first conflict aborts. -/
def CreateNewSession (files : ClientFiles) (requiredFiles : List FileMetadata)
    (requiredPchFile : Option FileMetadata) : Except String ClientFiles :=
  match registerRequiredFiles files requiredFiles with
  | .error e => .error e
  | .ok files2 =>
    match requiredPchFile with
    | none => .ok files2
    | some meta => StartUsingFileInSession files2 meta.fileName meta.sha

/-! ## Invocation timeout sweep (daemon.go, invocation.go, configuration.go)

Times are modelled in seconds. -/

/-- `timeoutForceInterruptInvocation = 8 * time.Minute` from daemon.go — a
package constant, not read from configuration. -/
def timeoutForceInterruptInvocationSec : Nat := 8 * 60

/-- The daemon defaults of `ParseConfiguration` (configuration.go). -/
structure Configuration where
  compilerQueueSizeIsNumCpu : Bool
  servers : List String
  logFileName : String
  logLevel : Int
  invocationTimeoutSec : Nat
  connectionTimeoutSec : Nat
deriving DecidableEq, Repr

def defaultConfiguration : Configuration :=
  { compilerQueueSizeIsNumCpu := true
    servers := ["localhost:43210"]
    logFileName := "stderr"
    logLevel := 0
    invocationTimeoutSec := 15 * 60
    connectionTimeoutSec := 15 }

/-- The synchronization fields of a daemon `Invocation`: the uploads-remaining
counter (releasing `wgUpload` at zero), the recv-done flag (releasing
`wgRecv`), and the recorded error. -/
structure InvocationSync where
  createTimeSec : Nat
  waitUploads : Nat
  recvDone : Bool
  err : Option String
deriving DecidableEq, Repr

/-- `Invocation.DoneUploadFile`: records the error and decrements the
uploads-remaining counter, releasing one unit of `wgUpload`. -/
def DoneUploadFile (inv : InvocationSync) (e : Option String) : InvocationSync :=
  { inv with
    err := match e with | some msg => some msg | none => inv.err
    waitUploads := inv.waitUploads - 1 }

/-- `Invocation.DoneRecvObj`: the first call records the error and releases
`wgRecv`. -/
def DoneRecvObj (inv : InvocationSync) (e : Option String) : InvocationSync :=
  if inv.recvDone then inv
  else
    { inv with
      err := match e with | some msg => some msg | none => inv.err
      recvDone := true }

def releaseUploadsLoop (e : String) : Nat → InvocationSync → InvocationSync
  | 0, inv => inv
  | n + 1, inv => releaseUploadsLoop e n (DoneUploadFile inv (some e))

/-- `Invocation.ForceInterrupt`: call `DoneUploadFile` until the
uploads-remaining counter is zero, then `DoneRecvObj`, all with the error. -/
def ForceInterrupt (inv : InvocationSync) (e : String) : InvocationSync :=
  DoneRecvObj (releaseUploadsLoop e inv.waitUploads inv) (some e)

/-- The per-invocation decision of `PeriodicallyInterruptHangedInvocations`:
an invocation is force-interrupted exactly when
`time.Since(createTime) > timeoutForceInterruptInvocation`. -/
def sweepInvocation (nowSec : Nat) (inv : InvocationSync) : InvocationSync :=
  if nowSec - inv.createTimeSec > timeoutForceInterruptInvocationSec then
    ForceInterrupt inv "interrupt after timeout"
  else inv

/-! ## Makefile escaping for emitted depfiles (dep-files.go
`escapeMakefileSpaces`, the dep-flags file `quoteMakefileTarget`) -/

/-- `strings.ReplaceAll` for a single-character pattern. -/
def replaceAllChar (c : Char) (rep : List Char) : List Char → List Char
  | [] => []
  | x :: xs => (if x = c then rep else [x]) ++ replaceAllChar c rep xs

/-- `escapeMakefileSpaces` from dep-files.go: replace newline, space and
colon, in that order, by their backslash-escaped forms. -/
def escapeMakefileSpaces (s : List Char) : List Char :=
  replaceAllChar ':' ['\\', ':']
    (replaceAllChar ' ' ['\\', ' ']
      (replaceAllChar '\n' ['\\', '\n'] s))

/-- Number of consecutive backslashes at the end of the already-scanned
prefix, as counted by the inner loop of `quoteMakefileTarget`. -/
def trailingBackslashes (l : List Char) : Nat :=
  (l.reverse.takeWhile (fun c => c = '\\')).length

def quoteMakefileTargetAux : List Char → List Char → List Char
  | _, [] => []
  | scanned, c :: rest =>
    (if c = ' ' then []
     else if c = '\t' then List.replicate (trailingBackslashes scanned) '\\' ++ ['\\']
     else if c = '$' then ['$']
     else if c = '#' then ['\\']
     else []) ++ c :: quoteMakefileTargetAux (scanned ++ [c]) rest

/-- `quoteMakefileTarget` from the dep-flags file: a Go `switch` over each
character.  The `case ' ':` arm has an empty body (Go cases do not fall
through), so only a tab reaches the backslash-escaping statements; `$` is
doubled and `#` gets a backslash; every character is then appended. -/
def quoteMakefileTarget (t : List Char) : List Char :=
  quoteMakefileTargetAux [] t

/-! ## Parsing the `-M` output (includes-collector.go
`extractIncludesFromCxxMStdout`)

`bufio.ScanWords` yields whitespace-separated tokens; `filepath.Abs` depends
on the daemon's working directory and is therefore a parameter. -/

/-- `strings.Trim(s, "\"")`: remove all leading and trailing quote
characters. -/
def trimQuoteChars (s : String) : String :=
  ⟨((s.data.dropWhile (fun c => c = '"')).reverse.dropWhile (fun c => c = '"')).reverse⟩

/-- Go `strings.HasSuffix` over the character lists (kernel-computable,
unlike `String.endsWith`). -/
def hasSuffixGo (s suffix : String) : Bool :=
  suffix.data.isSuffixOf s.data

/-- The discard condition of the second `if` of the loop body:
`line == "\\" || line == cppInFile || strings.HasSuffix(line, ".o") ||
strings.HasSuffix(line, ".o:")`. -/
def mTokenDiscarded (cppInFile tok : String) : Bool :=
  tok == "\\" || tok == cppInFile || hasSuffixGo tok ".o" || hasSuffixGo tok ".o:"

/-- A token is skipped when discarded; otherwise it is absolutized and
retained. -/
def keepMToken (abs : String → String) (cppInFile tok : String) : List String :=
  if mTokenDiscarded cppInFile tok then [] else [abs tok]

/-- The scanner loop of `extractIncludesFromCxxMStdout`, fuel-indexed so
that it is structurally recursive: every iteration consumes at least one
token, so any fuel at least the token count computes the loop. -/
def extractIncludesFuel (abs : String → String) (cppInFile : String) :
    Nat → List String → List String
  | 0, _ => []
  | _ + 1, [] => []
  | fuel + 1, tok :: rest =>
    if tok = "#pragma" then
      match rest with
      | [] => keepMToken abs cppInFile tok
      | t1 :: rest1 =>
        if t1 = "GCC" then
          match rest1 with
          | [] => keepMToken abs cppInFile tok
          | t2 :: rest2 =>
            if t2 = "pch_preprocess" then
              match rest2 with
              | [] => keepMToken abs cppInFile tok
              | f :: rest3 =>
                abs (trimQuoteChars f) ::
                  extractIncludesFuel abs cppInFile fuel rest3
            else
              keepMToken abs cppInFile tok ++
                extractIncludesFuel abs cppInFile fuel rest2
        else
          keepMToken abs cppInFile tok ++
            extractIncludesFuel abs cppInFile fuel rest1
    else
      keepMToken abs cppInFile tok ++ extractIncludesFuel abs cppInFile fuel rest

/-- `extractIncludesFromCxxMStdout` from includes-collector.go.  The pragma
condition `line == "#pragma" && scanner.Scan() && scanner.Text() == "GCC" && …`
short-circuits, so tokens consumed by a failed prefix are lost while the
`#pragma` token itself still reaches the retain/skip filter. -/
def extractIncludesFromCxxMStdout (abs : String → String) (cppInFile : String)
    (tokens : List String) : List String :=
  extractIncludesFuel abs cppInFile tokens.length tokens

/-- The extraction as the claim states it: exactly two kinds of tokens are
discarded — the make-style target token (a token ending in a colon) and the
input-source token — and every other token is retained, absolutized.  Kept
separate from the source translation for comparison. -/
def claimExtractIncludes (abs : String → String) (cppInFile : String)
    (tokens : List String) : List String :=
  (tokens.filter (fun tok => !(hasSuffixGo tok ":") && tok ≠ cppInFile)).map abs

/-- `filepath.Abs` in a process whose working directory is `/work`, applied
to already-clean paths: an environment instance for concrete evaluation. -/
def absAtWork (s : String) : String :=
  if ['/'].isPrefixOf s.data then s else "/work/" ++ s

/-! ## SHA-256 (crypto/sha256) and the object-cache key
(the object-cache file, `MakeObjCacheKey`)

A full executable SHA-256 over byte lists.  The round constants are the
fractional parts of the cube roots of the first 64 primes and the initial
state those of the square roots of the first 8 primes, computed here by
integer root extraction instead of transcribed tables. -/

/-- Evaluation helper: semantically `k n`, but matching on the `Nat` forces
kernel reduction to bring `n` to a literal before continuing, keeping the
reduction stack shallow. -/
def forceNat {α : Type} (n : Nat) (k : Nat → α) : α :=
  match n with
  | 0 => k 0
  | m + 1 => k (m + 1)

def add32 (a b : Nat) : Nat := (a + b) % 4294967296

def rotr32 (x n : Nat) : Nat := x / 2 ^ n + x % 2 ^ n * 2 ^ (32 - n)

def shr32 (x n : Nat) : Nat := x / 2 ^ n

def bigSigma0 (x : Nat) : Nat := Nat.xor (Nat.xor (rotr32 x 2) (rotr32 x 13)) (rotr32 x 22)

def bigSigma1 (x : Nat) : Nat := Nat.xor (Nat.xor (rotr32 x 6) (rotr32 x 11)) (rotr32 x 25)

def smallSigma0 (x : Nat) : Nat := Nat.xor (Nat.xor (rotr32 x 7) (rotr32 x 18)) (shr32 x 3)

def smallSigma1 (x : Nat) : Nat := Nat.xor (Nat.xor (rotr32 x 17) (rotr32 x 19)) (shr32 x 10)

def chFn (e f g : Nat) : Nat := Nat.xor (Nat.land e f) (Nat.land (Nat.xor e 4294967295) g)

def majFn (a b c : Nat) : Nat := Nat.xor (Nat.xor (Nat.land a b) (Nat.land a c)) (Nat.land b c)

/-- Integer cube root by binary digit descent (arguments stay below
`2 ^ 103`). -/
def icbrt (n : Nat) : Nat :=
  (List.range 36).foldl
    (fun r i => let c := r + 2 ^ (35 - i); if c * c * c ≤ n then c else r) 0

/-- Integer square root by binary digit descent (arguments stay below
`2 ^ 74`). -/
def isqrt (n : Nat) : Nat :=
  (List.range 37).foldl
    (fun r i => let c := r + 2 ^ (36 - i); if c * c ≤ n then c else r) 0

def first64Primes : List Nat :=
  [2, 3, 5, 7, 11, 13, 17, 19, 23, 29, 31, 37, 41, 43, 47, 53,
   59, 61, 67, 71, 73, 79, 83, 89, 97, 101, 103, 107, 109, 113, 127, 131,
   137, 139, 149, 151, 157, 163, 167, 173, 179, 181, 191, 193, 197, 199, 211, 223,
   227, 229, 233, 239, 241, 251, 257, 263, 269, 271, 277, 281, 283, 293, 307, 311]

def sha256K : List Nat :=
  first64Primes.map (fun p => icbrt (p * 2 ^ 96) % 2 ^ 32)

def sha256H0 : List Nat :=
  (first64Primes.take 8).map (fun p => isqrt (p * 2 ^ 64) % 2 ^ 32)

/-- `k` big-endian bytes of `n`. -/
def toBytesBE (k n : Nat) : List Nat :=
  (List.range k).map (fun i => n / 2 ^ (8 * (k - 1 - i)) % 256)

/-- Merkle–Damgård padding: `0x80`, zeros, then the 64-bit big-endian bit
length, to a multiple of 64 bytes. -/
def sha256Pad (msg : List Nat) : List Nat :=
  msg ++ 128 :: (List.replicate ((119 - msg.length % 64) % 64) 0 ++ toBytesBE 8 (8 * msg.length))

def beWordVal (l : List Nat) : Nat := l.foldl (fun a b => a * 256 + b) 0

def sha256Schedule (ws : List Nat) : List Nat :=
  (List.range 48).foldl
    (fun w _ =>
      let n := w.length
      forceNat (add32 (add32 (smallSigma1 (w.getD (n - 2) 0)) (w.getD (n - 7) 0))
                  (add32 (smallSigma0 (w.getD (n - 15) 0)) (w.getD (n - 16) 0)))
        (fun x => w ++ [x]))
    ws

def sha256Round (w : List Nat) (st : Nat × Nat × Nat × Nat × Nat × Nat × Nat × Nat)
    (i : Nat) : Nat × Nat × Nat × Nat × Nat × Nat × Nat × Nat :=
  match st with
  | (a, b, c, d, e, f, g, hh) =>
    forceNat (add32 hh (add32 (add32 (bigSigma1 e) (chFn e f g))
                              (add32 (sha256K.getD i 0) (w.getD i 0)))) (fun t1 =>
    forceNat (add32 (bigSigma0 a) (majFn a b c)) (fun t2 =>
    forceNat (add32 t1 t2) (fun a2 =>
    forceNat (add32 d t1) (fun e2 =>
    (a2, a, b, c, e2, e, f, g)))))

def sha256Compress (h : List Nat) (block : List Nat) : List Nat :=
  let w := sha256Schedule ((chunksOf 4 block).map beWordVal)
  let fin := (List.range 64).foldl (sha256Round w)
    (h.getD 0 0, h.getD 1 0, h.getD 2 0, h.getD 3 0,
     h.getD 4 0, h.getD 5 0, h.getD 6 0, h.getD 7 0)
  match fin with
  | (a, b, c, d, e, f, g, hh) =>
    [add32 (h.getD 0 0) a, add32 (h.getD 1 0) b, add32 (h.getD 2 0) c,
     add32 (h.getD 3 0) d, add32 (h.getD 4 0) e, add32 (h.getD 5 0) f,
     add32 (h.getD 6 0) g, add32 (h.getD 7 0) hh]

/-- The 32-byte SHA-256 digest of a byte sequence. -/
def sha256Digest (msg : List Nat) : List Nat :=
  ((chunksOf 64 (sha256Pad msg)).foldl sha256Compress sha256H0).flatMap (toBytesBE 4)

/-- `common.MakeSHA256Struct`: the digest bytes become four big-endian
`uint64` segments. -/
def MakeSHA256Struct (digest : List Nat) : SHA256 :=
  ⟨beWordVal (digest.take 8), beWordVal ((digest.drop 8).take 8),
   beWordVal ((digest.drop 16).take 8), beWordVal ((digest.drop 24).take 8)⟩

/-- Go `uint64(i)` for an `int64`, two's complement. -/
def uint64OfInt64 (i : Int) : Nat := (i % 2 ^ 64).toNat

/-- The fields of `fileInClientDir` read by `MakeObjCacheKey`. -/
structure SessionFile where
  fileSize : Int
  fileSHA256 : SHA256
deriving DecidableEq, Repr

/-- `ObjFileCache.MakeObjCacheKey`: hash the compiler name, every argument
of `compilerArgs` as passed by `StartCompilationSession` (the request's
argument list), and the basename of the input file; then fold in the
argument and file counts and each file's sha and size by xor. -/
def MakeObjCacheKey (compilerName : String) (compilerArgs : List String)
    (sessionFiles : List SessionFile) (cppInFile : String) : SHA256 :=
  let hashed := utf8Bytes compilerName ++ compilerArgs.flatMap utf8Bytes ++
    utf8Bytes (goBase cppInFile)
  let h0 := MakeSHA256Struct (sha256Digest hashed)
  let h1 : SHA256 :=
    { h0 with
      B8_15 := Nat.xor h0.B8_15 (compilerArgs.length % 2 ^ 64)
      B16_23 := Nat.xor h0.B16_23 (sessionFiles.length % 2 ^ 64) }
  sessionFiles.foldl
    (fun acc file =>
      let x := acc.XorWith file.fileSHA256
      { x with B0_7 := Nat.xor x.B0_7 (uint64OfInt64 file.fileSize) })
    h1

/-! # Theorems -/

/-! ## Helper lemmas -/

theorem forceNat_eq {α : Type} (n : Nat) (k : Nat → α) : forceNat n k = k n := by
  cases n <;> rfl

theorem chunksOfFuel_sum_length {α : Type} (k : Nat) (hk : 0 < k) :
    ∀ (fuel : Nat) (l : List α), l.length ≤ fuel →
      ((chunksOfFuel k fuel l).map List.length).sum = l.length := by
  intro fuel
  induction fuel with
  | zero =>
    intro l hl
    have : l = [] := List.length_eq_zero.mp (Nat.le_zero.mp hl)
    subst this
    rfl
  | succ fuel ih =>
    intro l hl
    cases l with
    | nil => rfl
    | cons x xs =>
      have hk0 : k ≠ 0 := Nat.pos_iff_ne_zero.mp hk
      simp only [chunksOfFuel, hk0, if_false, List.map_cons, List.sum_cons]
      have hdrop : ((x :: xs).drop k).length ≤ fuel := by
        simp only [List.length_drop, List.length_cons]
        simp only [List.length_cons] at hl
        omega
      rw [ih _ hdrop]
      simp only [List.length_take, List.length_drop, List.length_cons]
      simp only [List.length_cons] at hl ⊢
      omega

theorem chunksOf_sum_length {α : Type} (k : Nat) (hk : 0 < k) (l : List α) :
    ((chunksOf k l).map List.length).sum = l.length :=
  chunksOfFuel_sum_length k hk l.length l (Nat.le_refl _)

/-- After any single event the `compilationStarted` flag holds 1. -/
theorem stepCompilationFlag_started (st : CompilationFlagState) (e : SessionEvent) :
    (stepCompilationFlag st e).compilationStarted = 1 := by
  cases e <;> rfl

/-- Once the flag is set, further events never launch the compiler. -/
theorem foldl_stepCompilationFlag_launches :
    ∀ (evs : List SessionEvent) (st : CompilationFlagState),
      st.compilationStarted ≠ 0 →
      (evs.foldl stepCompilationFlag st).compilerLaunches = st.compilerLaunches ∧
      (evs.foldl stepCompilationFlag st).compilationStarted ≠ 0 := by
  intro evs
  induction evs with
  | nil => intro st h; exact ⟨rfl, h⟩
  | cons e rest ih =>
    intro st h
    have hstep : (stepCompilationFlag st e).compilerLaunches = st.compilerLaunches := by
      cases e with
      | objCacheHitStore => rfl
      | readinessSweepSwap => simp [stepCompilationFlag, h]
    have hstarted : (stepCompilationFlag st e).compilationStarted ≠ 0 := by
      rw [stepCompilationFlag_started]; exact Nat.one_ne_zero
    have := ih (stepCompilationFlag st e) hstarted
    simp only [List.foldl_cons]
    exact ⟨by rw [this.1, hstep], this.2⟩

/-! ## Claim C2 -/

/-- Claim C2: for every worker-side session, in every interleaving of
readiness sweeps the compiler is launched at most once — a sweep launches
only when it swaps `compilationStarted` from 0 to 1 — and on the
object-cache-hit path, which stores 1 at session start, no compiler ever
runs for the session. -/
theorem compilationStarted_launches_at_most_once (evs : List SessionEvent) :
    (runCompilationFlag evs).compilerLaunches ≤ 1 ∧
    (runCompilationFlag (SessionEvent.objCacheHitStore :: evs)).compilerLaunches = 0 := by
  constructor
  · cases evs with
    | nil => exact Nat.zero_le 1
    | cons e rest =>
      have hstarted : (stepCompilationFlag ⟨0, 0⟩ e).compilationStarted ≠ 0 := by
        rw [stepCompilationFlag_started]; exact Nat.one_ne_zero
      have hl : (stepCompilationFlag ⟨0, 0⟩ e).compilerLaunches ≤ 1 := by
        cases e <;> simp [stepCompilationFlag]
      have := foldl_stepCompilationFlag_launches rest (stepCompilationFlag ⟨0, 0⟩ e) hstarted
      simpa only [runCompilationFlag, List.foldl_cons, this.1] using hl
  · have hstarted : (stepCompilationFlag ⟨0, 0⟩ SessionEvent.objCacheHitStore).compilationStarted ≠ 0 := by
      rw [stepCompilationFlag_started]; exact Nat.one_ne_zero
    have := foldl_stepCompilationFlag_launches evs
      (stepCompilationFlag ⟨0, 0⟩ SessionEvent.objCacheHitStore) hstarted
    simpa only [runCompilationFlag, List.foldl_cons] using this.1

/-! ## Claim C6 -/

/-- Claim C6: on the object-delivery stream, a ready session with non-zero
exit code produces exactly one header chunk (exit code, stdout, stderr,
duration) and no body chunks; with zero exit code the header carries the
object-file size and the body chunk lengths sum to that size. -/
theorem recvCompiledObjStream_header_and_body (session : ReadySession) :
    (session.compilerExitCode ≠ 0 →
      recvCompiledObjStreamReplies session =
        [{ sessionID := session.sessionID
           compilerExitCode := session.compilerExitCode
           compilerStdout := session.compilerStdout
           compilerStderr := session.compilerStderr
           compilerDuration := session.compilerDuration }]) ∧
    (session.compilerExitCode = 0 →
      ∃ body : List RecvCompiledObjChunkReply,
        recvCompiledObjStreamReplies session =
          { sessionID := session.sessionID
            compilerExitCode := session.compilerExitCode
            compilerStdout := session.compilerStdout
            compilerStderr := session.compilerStderr
            compilerDuration := session.compilerDuration
            fileSize := session.objFileContent.length } :: body ∧
        (body.map (fun r => r.chunkBody.length)).sum = session.objFileContent.length ∧
        ∀ r ∈ body, r.sessionID = session.sessionID) := by
  constructor
  · intro hne
    simp [recvCompiledObjStreamReplies, hne]
  · intro hzero
    refine ⟨(chunksOf 65536 session.objFileContent).map
      (fun body => { sessionID := session.sessionID, chunkBody := body }), ?_, ?_, ?_⟩
    · simp [recvCompiledObjStreamReplies, hzero, sendObjFileByChunks]
    · rw [List.map_map]
      have : ((fun r : RecvCompiledObjChunkReply => r.chunkBody.length) ∘
          (fun body => ({ sessionID := session.sessionID, chunkBody := body } :
            RecvCompiledObjChunkReply))) = List.length := rfl
      rw [this]
      exact chunksOf_sum_length 65536 (by decide) _
    · intro r hr
      simp only [List.mem_map] at hr
      obtain ⟨b, _, hb⟩ := hr
      rw [← hb]

/-- Witness for C6: the theorem applied to a failing session (exit code 1)
and to a succeeding one with a three-byte object. -/
theorem recvCompiledObjStream_header_and_body_witness :
    (recvCompiledObjStreamReplies ⟨7, 1, [111], [101], 42, [1, 2, 3]⟩ =
      [{ sessionID := 7, compilerExitCode := 1, compilerStdout := [111],
         compilerStderr := [101], compilerDuration := 42 }]) ∧
    (∃ body : List RecvCompiledObjChunkReply,
      recvCompiledObjStreamReplies ⟨7, 0, [], [], 42, [1, 2, 3]⟩ =
        { sessionID := 7, compilerExitCode := 0, compilerStdout := [],
          compilerStderr := [], compilerDuration := 42, fileSize := 3 } :: body ∧
      (body.map (fun r => r.chunkBody.length)).sum = 3 ∧
      ∀ r ∈ body, r.sessionID = 7) :=
  ⟨(recvCompiledObjStream_header_and_body ⟨7, 1, [111], [101], 42, [1, 2, 3]⟩).1 (by decide),
   (recvCompiledObjStream_header_and_body ⟨7, 0, [], [], 42, [1, 2, 3]⟩).2 rfl⟩

/-! ## Claim C3 -/

/-- Counterexample to C3 as stated: a session with exit code 0, empty
stdout but non-empty stderr (a warning), a non-empty `objCacheKey` and a
present output file.  The claim says the object cache is left unchanged;
the code (session.go checks only the exit code) saves the object. -/
theorem saveObjAfterCompilation_counterexample :
    saveObjAfterCompilation []
        ⟨⟨1, 0, 0, 0⟩, 0, [], [119], true, "some.cpp.1.o"⟩ ≠ ([] : ObjCache) ∧
    claimObjCacheSaveCondition ⟨⟨1, 0, 0, 0⟩, 0, [], [119], true, "some.cpp.1.o"⟩ = false := by
  constructor
  · intro h
    simp [saveObjAfterCompilation, SaveFileToCache, lookupInCache, SHA256.IsEmpty] at h
  · decide

/-- Amended C3: after a remote compilation finishes, the object is saved
under `objCacheKey` if and only if the key is non-empty, the compiler exit
code is zero and the output file stat succeeds (and the key is not already
cached, saving being a no-op otherwise); stdout and stderr are not
consulted on this path. -/
theorem saveObjAfterCompilation_characterization (cache : ObjCache) (s : CompiledSession) :
    (saveObjAfterCompilation cache s ≠ cache ↔
      (s.objCacheKey.IsEmpty = false ∧ s.compilerExitCode = 0 ∧
       s.outputFileStatOk = true ∧ lookupInCache cache s.objCacheKey = none)) ∧
    (s.objCacheKey.IsEmpty = false → s.compilerExitCode = 0 → s.outputFileStatOk = true →
      lookupInCache cache s.objCacheKey = none →
      lookupInCache (saveObjAfterCompilation cache s) s.objCacheKey = some s.outputFile) := by
  have hins : ∀ key value, lookupInCache cache key = none →
      ((key, value) :: cache : ObjCache) ≠ cache := by
    intro key value _ h
    have := congrArg List.length h
    simp at this
  constructor
  · constructor
    · intro hne
      by_cases hkey : s.objCacheKey.IsEmpty
      · exact (hne (by simp [saveObjAfterCompilation, hkey])).elim
      · by_cases hexit : s.compilerExitCode = 0
        · by_cases hstat : s.outputFileStatOk
          · refine ⟨by simpa using hkey, hexit, by simpa using hstat, ?_⟩
            by_cases hlook : lookupInCache cache s.objCacheKey = none
            · exact hlook
            · exfalso
              apply hne
              obtain ⟨v, hv⟩ := Option.ne_none_iff_exists.mp hlook
              simp [saveObjAfterCompilation, hkey, hexit, hstat, SaveFileToCache, ← hv]
          · exact (hne (by simp [saveObjAfterCompilation, hkey, hexit, hstat])).elim
        · exact (hne (by simp [saveObjAfterCompilation, hkey, hexit])).elim
    · rintro ⟨hkey, hexit, hstat, hlook⟩
      simp only [saveObjAfterCompilation, hkey, hexit, hstat, if_true, if_false,
        Bool.not_eq_true, SaveFileToCache, hlook]
      exact hins _ _ hlook
  · intro hkey hexit hstat hlook
    simp only [saveObjAfterCompilation, hkey, hexit, hstat, SaveFileToCache, hlook,
      Bool.not_eq_true, if_true, if_false]
    simp [lookupInCache]

/-- Witness for C3: the characterization applied at an empty cache and a
concrete successful session, discharging each hypothesis. -/
theorem saveObjAfterCompilation_characterization_witness :
    ((saveObjAfterCompilation []
        ⟨⟨5, 0, 0, 0⟩, 0, [], [], true, "foo.cpp.9.o"⟩ ≠ ([] : ObjCache)) ↔
      ((⟨5, 0, 0, 0⟩ : SHA256).IsEmpty = false ∧ (0 : Int) = 0 ∧ true = true ∧
        lookupInCache [] ⟨5, 0, 0, 0⟩ = none)) ∧
    lookupInCache
      (saveObjAfterCompilation [] ⟨⟨5, 0, 0, 0⟩, 0, [], [], true, "foo.cpp.9.o"⟩)
      ⟨5, 0, 0, 0⟩ = some "foo.cpp.9.o" :=
  ⟨(saveObjAfterCompilation_characterization [] ⟨⟨5, 0, 0, 0⟩, 0, [], [], true, "foo.cpp.9.o"⟩).1,
   (saveObjAfterCompilation_characterization [] ⟨⟨5, 0, 0, 0⟩, 0, [], [], true, "foo.cpp.9.o"⟩).2
      (by decide) rfl rfl (by decide)⟩

/-! ## Claim C5 -/

/-- Claim C5: with a non-empty worker list, the daemon selects the worker at
index `FNV1a-32(basename(F)) mod N`, and the selection is a deterministic
function of the input file's basename alone. -/
theorem chooseRemoteConnection_spec {α : Type} (workers : List α) (hw : workers ≠ [])
    (d : α) (f g : String) :
    chooseRemoteConnectionForCppCompilation workers hw f =
      workers.getD (fnv1a32 (utf8Bytes (goBase f)) % workers.length) d ∧
    (goBase f = goBase g →
      chooseRemoteConnectionForCppCompilation workers hw f =
        chooseRemoteConnectionForCppCompilation workers hw g) := by
  constructor
  · have hlt : fnv1a32 (utf8Bytes (goBase f)) % workers.length < workers.length :=
      Nat.mod_lt _ (List.length_pos.mpr hw)
    simp [chooseRemoteConnectionForCppCompilation, chooseRemoteIndex,
      List.getD_eq_getElem?_getD, List.getElem?_eq_getElem hlt]
  · intro hfg
    simp [chooseRemoteConnectionForCppCompilation, chooseRemoteIndex, hfg]

/-- Witness for C5: two files in different directories with the same
basename `foo.cpp` map to the same worker of a two-worker pool, and the
selected index is the FNV-1a formula. -/
theorem chooseRemoteConnection_spec_witness :
    (chooseRemoteConnectionForCppCompilation ["w0", "w1"]
        (List.cons_ne_nil "w0" ["w1"]) "/a/b/foo.cpp" =
      ["w0", "w1"].getD
        (fnv1a32 (utf8Bytes (goBase "/a/b/foo.cpp")) % (["w0", "w1"] : List String).length)
        "w0") ∧
    chooseRemoteConnectionForCppCompilation ["w0", "w1"]
        (List.cons_ne_nil "w0" ["w1"]) "/a/b/foo.cpp" =
      chooseRemoteConnectionForCppCompilation ["w0", "w1"]
        (List.cons_ne_nil "w0" ["w1"]) "/zzz/foo.cpp" :=
  ⟨(chooseRemoteConnection_spec ["w0", "w1"] (List.cons_ne_nil "w0" ["w1"])
      "w0" "/a/b/foo.cpp" "/zzz/foo.cpp").1,
   (chooseRemoteConnection_spec ["w0", "w1"] (List.cons_ne_nil "w0" ["w1"])
      "w0" "/a/b/foo.cpp" "/zzz/foo.cpp").2 (by decide)⟩

/-! ## Claim C7 -/

/-- Claim C7 evaluated at the failing input: `quoteMakefileTarget` leaves a
space in a target unescaped (the `case ' ':` arm of the Go switch is empty
and Go cases do not fall through), while a tab is escaped by the
`case '\t':` arm, `$` is doubled, `#` gets a backslash, and dependency paths
do get their spaces escaped by `escapeMakefileSpaces`. -/
theorem quoteMakefileTarget_space_unescaped :
    quoteMakefileTarget ("a b.o".data) = "a b.o".data ∧
    quoteMakefileTarget ("a b.o".data) ≠ "a\\ b.o".data ∧
    quoteMakefileTarget ("a\tb.o".data) = "a\\\tb.o".data ∧
    quoteMakefileTarget ("a$b#c.o".data) = "a$$b\\#c.o".data ∧
    escapeMakefileSpaces ("a b.o".data) = "a\\ b.o".data ∧
    escapeMakefileSpaces ("a:b.o".data) = "a\\:b.o".data := by
  refine ⟨by decide, by decide, by decide, by decide, by decide, by decide⟩


/-! ## Claim C9 -/

/-- Counterexample to C9 as stated: an invocation nine minutes old.  Under
the claimed configurable 10-minute default it would be left alone, but the
sweep compares against the fixed 8-minute constant and force-interrupts it;
moreover the constant is not 10 minutes and the configuration default (which
the sweep never reads) is 15 minutes. -/
theorem invocationTimeout_counterexample :
    sweepInvocation 540 ⟨0, 2, false, none⟩ ≠ ⟨0, 2, false, none⟩ ∧
    ¬ (540 - 0 > 10 * 60) ∧
    timeoutForceInterruptInvocationSec ≠ 10 * 60 ∧
    defaultConfiguration.invocationTimeoutSec ≠ 10 * 60 := by
  refine ⟨by decide, by decide, by decide, by decide⟩

theorem releaseUploadsLoop_spec (e : String) :
    ∀ (n : Nat) (i : InvocationSync),
      (releaseUploadsLoop e n i).waitUploads = i.waitUploads - n ∧
      (releaseUploadsLoop e n i).recvDone = i.recvDone := by
  intro n
  induction n with
  | zero => intro i; exact ⟨rfl, rfl⟩
  | succ m ih =>
    intro i
    have h := ih (DoneUploadFile i (some e))
    have hstep : releaseUploadsLoop e (m + 1) i =
        releaseUploadsLoop e m (DoneUploadFile i (some e)) := rfl
    have hwait : (DoneUploadFile i (some e)).waitUploads = i.waitUploads - 1 := rfl
    have hdone : (DoneUploadFile i (some e)).recvDone = i.recvDone := rfl
    rw [hstep]
    refine ⟨?_, ?_⟩
    · rw [h.1, hwait]; omega
    · rw [h.2, hdone]

/-- `ForceInterrupt` releases both completion signals: the uploads-remaining
counter reaches zero and the recv-done flag is set, with the error recorded
when the receive signal had not already fired. -/
theorem ForceInterrupt_spec (inv : InvocationSync) (e : String) :
    (ForceInterrupt inv e).waitUploads = 0 ∧
    (ForceInterrupt inv e).recvDone = true ∧
    (inv.recvDone = false → (ForceInterrupt inv e).err = some e) := by
  have h := releaseUploadsLoop_spec e inv.waitUploads inv
  unfold ForceInterrupt DoneRecvObj
  by_cases hd : (releaseUploadsLoop e inv.waitUploads inv).recvDone = true
  · rw [if_pos hd]
    refine ⟨by rw [h.1]; omega, hd, ?_⟩
    intro hfalse
    rw [h.2] at hd
    rw [hfalse] at hd
    exact absurd hd (by decide)
  · rw [if_neg hd]
    exact ⟨by show (releaseUploadsLoop e inv.waitUploads inv).waitUploads = 0; rw [h.1]; omega,
      rfl, fun _ => rfl⟩

/-- Amended C9: the sweep force-errors exactly the invocations older than
the fixed 8-minute constant `timeoutForceInterruptInvocation` (the
configuration's `InvocationTimeout`, default 15 minutes, is not consulted),
and a force-interrupt zeroes the uploads-remaining counter and releases the
recv-done signal, recording the error. -/
theorem invocationTimeout_sweep (nowSec : Nat) (inv : InvocationSync) :
    (nowSec - inv.createTimeSec > timeoutForceInterruptInvocationSec →
      sweepInvocation nowSec inv = ForceInterrupt inv "interrupt after timeout" ∧
      (sweepInvocation nowSec inv).waitUploads = 0 ∧
      (sweepInvocation nowSec inv).recvDone = true ∧
      (inv.recvDone = false →
        (sweepInvocation nowSec inv).err = some "interrupt after timeout")) ∧
    (¬ nowSec - inv.createTimeSec > timeoutForceInterruptInvocationSec →
      sweepInvocation nowSec inv = inv) := by
  constructor
  · intro hage
    have hsweep : sweepInvocation nowSec inv = ForceInterrupt inv "interrupt after timeout" := by
      simp [sweepInvocation, hage]
    have h := ForceInterrupt_spec inv "interrupt after timeout"
    rw [hsweep]
    exact ⟨rfl, h.1, h.2.1, h.2.2⟩
  · intro hage
    simp [sweepInvocation, hage]

/-- Witness for C9's amended theorem: a 9-minute-old invocation with two
pending uploads is interrupted with both signals released; a 1-minute-old
one is untouched. -/
theorem invocationTimeout_sweep_witness :
    (sweepInvocation 540 ⟨0, 2, false, none⟩ =
        ForceInterrupt ⟨0, 2, false, none⟩ "interrupt after timeout" ∧
      (sweepInvocation 540 ⟨0, 2, false, none⟩).waitUploads = 0 ∧
      (sweepInvocation 540 ⟨0, 2, false, none⟩).recvDone = true ∧
      ((⟨0, 2, false, none⟩ : InvocationSync).recvDone = false →
        (sweepInvocation 540 ⟨0, 2, false, none⟩).err = some "interrupt after timeout")) ∧
    sweepInvocation 60 ⟨0, 2, false, none⟩ = ⟨0, 2, false, none⟩ :=
  ⟨(invocationTimeout_sweep 540 ⟨0, 2, false, none⟩).1 (by decide),
   (invocationTimeout_sweep 60 ⟨0, 2, false, none⟩).2 (by decide)⟩


/-! ## Claim C8 -/

/-- Counterexample to C8 as stated: in the `-M` output tokens
`foo.o: /x/a.h \ /x/b.h` for input `/x/x.cpp`, the claim retains the
backslash line-continuation token as a dependency, but the code discards
it (`line == "\\"` is a third discarded kind). -/
theorem extractIncludes_counterexample :
    extractIncludesFromCxxMStdout absAtWork "/x/x.cpp" ["foo.o:", "/x/a.h", "\\", "/x/b.h"] ≠
      claimExtractIncludes absAtWork "/x/x.cpp" ["foo.o:", "/x/a.h", "\\", "/x/b.h"] ∧
    extractIncludesFromCxxMStdout absAtWork "/x/x.cpp" ["foo.o:", "/x/a.h", "\\", "/x/b.h"] =
      ["/x/a.h", "/x/b.h"] ∧
    claimExtractIncludes absAtWork "/x/x.cpp" ["foo.o:", "/x/a.h", "\\", "/x/b.h"] =
      ["/x/a.h", "/work/\\", "/x/b.h"] := by
  refine ⟨by decide, by decide, by decide⟩

theorem extractIncludesFuel_noPragma (abs : String → String) (cppInFile : String) :
    ∀ (fuel : Nat) (tokens : List String), tokens.length ≤ fuel →
      (∀ t ∈ tokens, t ≠ "#pragma") →
      extractIncludesFuel abs cppInFile fuel tokens =
        (tokens.filter (fun tok => !mTokenDiscarded cppInFile tok)).map abs := by
  intro fuel
  induction fuel with
  | zero =>
    intro tokens hlen _
    have : tokens = [] := List.length_eq_zero.mp (Nat.le_zero.mp hlen)
    subst this
    rfl
  | succ f ih =>
    intro tokens hlen hnp
    cases tokens with
    | nil => rfl
    | cons tok rest =>
      have htok : tok ≠ "#pragma" := hnp tok (List.mem_cons_self _ _)
      have hrest : ∀ t ∈ rest, t ≠ "#pragma" := fun t ht => hnp t (List.mem_cons_of_mem _ ht)
      have hlen2 : rest.length ≤ f := by
        simp only [List.length_cons] at hlen
        omega
      have hunfold : extractIncludesFuel abs cppInFile (f + 1) (tok :: rest) =
          keepMToken abs cppInFile tok ++ extractIncludesFuel abs cppInFile f rest := by
        simp only [extractIncludesFuel, htok, if_false]
      rw [hunfold, ih rest hlen2 hrest, List.filter_cons]
      cases hd : mTokenDiscarded cppInFile tok with
      | true => simp [keepMToken, hd]
      | false => simp [keepMToken, hd]

theorem extractIncludesFuel_congr (abs : String → String) (cppInFile : String) :
    ∀ (fuel fuel2 : Nat) (tokens : List String),
      tokens.length ≤ fuel → tokens.length ≤ fuel2 →
      extractIncludesFuel abs cppInFile fuel tokens =
        extractIncludesFuel abs cppInFile fuel2 tokens := by
  intro fuel
  induction fuel with
  | zero =>
    intro fuel2 tokens hlen _
    have : tokens = [] := List.length_eq_zero.mp (Nat.le_zero.mp hlen)
    subst this
    cases fuel2 <;> rfl
  | succ f ih =>
    intro fuel2 tokens hlen hlen2
    cases tokens with
    | nil => cases fuel2 <;> rfl
    | cons tok rest =>
      cases fuel2 with
      | zero => simp at hlen2
      | succ f2 =>
        simp only [List.length_cons] at hlen hlen2
        simp only [extractIncludesFuel]
        by_cases hp : tok = "#pragma"
        · simp only [if_pos hp]
          cases rest with
          | nil => rfl
          | cons t1 rest1 =>
            simp only [List.length_cons] at hlen hlen2
            by_cases h1 : t1 = "GCC"
            · simp only [if_pos h1]
              cases rest1 with
              | nil => rfl
              | cons t2 rest2 =>
                simp only [List.length_cons] at hlen hlen2
                by_cases h2 : t2 = "pch_preprocess"
                · simp only [if_pos h2]
                  cases rest2 with
                  | nil => rfl
                  | cons g rest3 =>
                    simp only [List.length_cons] at hlen hlen2
                    exact congrArg (abs (trimQuoteChars g) :: ·)
                      (ih f2 rest3 (by omega) (by omega))
                · simp only [if_neg h2]
                  exact congrArg (keepMToken abs cppInFile tok ++ ·)
                    (ih f2 rest2 (by omega) (by omega))
            · simp only [if_neg h1]
              exact congrArg (keepMToken abs cppInFile tok ++ ·)
                (ih f2 rest1 (by omega) (by omega))
        · simp only [if_neg hp]
          exact congrArg (keepMToken abs cppInFile tok ++ ·)
            (ih f2 rest (by omega) (by omega))

/-- Amended C8: the `-M` output scanner processes every token other than
`#pragma` one at a time, discarding exactly four kinds — the backslash
line-continuation token, the input-source token, and any token ending in
`.o` or `.o:` (which covers the make-style target) — and retaining every
other such token, absolutized; a `#pragma` that begins a complete
`#pragma GCC pch_preprocess "file"` sequence contributes the quoted file
(quotes trimmed, absolutized) and processing continues after the sequence;
consequently, on output with no `#pragma` token the result is exactly the
filtered, absolutized token list. -/
theorem extractIncludes_characterization (abs : String → String) (cppInFile : String) :
    extractIncludesFromCxxMStdout abs cppInFile [] = [] ∧
    (∀ tok rest, tok ≠ "#pragma" →
      extractIncludesFromCxxMStdout abs cppInFile (tok :: rest) =
        keepMToken abs cppInFile tok ++ extractIncludesFromCxxMStdout abs cppInFile rest) ∧
    (∀ f rest,
      extractIncludesFromCxxMStdout abs cppInFile
          ("#pragma" :: "GCC" :: "pch_preprocess" :: f :: rest) =
        abs (trimQuoteChars f) :: extractIncludesFromCxxMStdout abs cppInFile rest) ∧
    (∀ tokens, (∀ t ∈ tokens, t ≠ "#pragma") →
      extractIncludesFromCxxMStdout abs cppInFile tokens =
        (tokens.filter (fun tok => !mTokenDiscarded cppInFile tok)).map abs) := by
  refine ⟨rfl, ?_, ?_, ?_⟩
  · intro tok rest hp
    have hstep : extractIncludesFromCxxMStdout abs cppInFile (tok :: rest) =
        if tok = "#pragma" then
          extractIncludesFuel abs cppInFile (rest.length + 1) (tok :: rest)
        else keepMToken abs cppInFile tok ++
          extractIncludesFuel abs cppInFile rest.length rest := by
      rw [if_neg hp]
      simp only [extractIncludesFromCxxMStdout, List.length_cons, extractIncludesFuel,
        if_neg hp]
    rw [hstep, if_neg hp]
    rfl
  · intro f rest
    have hstep : extractIncludesFromCxxMStdout abs cppInFile
        ("#pragma" :: "GCC" :: "pch_preprocess" :: f :: rest) =
        abs (trimQuoteChars f) ::
          extractIncludesFuel abs cppInFile (rest.length + 3) rest := rfl
    rw [hstep]
    exact congrArg (abs (trimQuoteChars f) :: ·)
      (extractIncludesFuel_congr abs cppInFile (rest.length + 3) rest.length rest
        (by omega) (Nat.le_refl _))
  · intro tokens hnp
    exact extractIncludesFuel_noPragma abs cppInFile tokens.length tokens (Nat.le_refl _) hnp

/-- Witness for C8's amended theorem: the non-pragma step, the complete
pragma sequence, and the pragma-free closed form, each at concrete input. -/
theorem extractIncludes_characterization_witness :
    (extractIncludesFromCxxMStdout absAtWork "/x/x.cpp" ["/x/a.h", "/x/b.h"] =
      keepMToken absAtWork "/x/x.cpp" "/x/a.h" ++
        extractIncludesFromCxxMStdout absAtWork "/x/x.cpp" ["/x/b.h"]) ∧
    (extractIncludesFromCxxMStdout absAtWork "/x/x.cpp"
        ["#pragma", "GCC", "pch_preprocess", "\"/x/all.h.nocc-pch\"", "/x/a.h"] =
      absAtWork (trimQuoteChars "\"/x/all.h.nocc-pch\"") ::
        extractIncludesFromCxxMStdout absAtWork "/x/x.cpp" ["/x/a.h"]) ∧
    extractIncludesFromCxxMStdout absAtWork "/x/x.cpp" ["foo.o:", "/x/a.h", "\\", "/x/b.h"] =
      ((["foo.o:", "/x/a.h", "\\", "/x/b.h"].filter
          (fun tok => !mTokenDiscarded "/x/x.cpp" tok)).map absAtWork) :=
  ⟨(extractIncludes_characterization absAtWork "/x/x.cpp").2.1 "/x/a.h" ["/x/b.h"] (by decide),
   (extractIncludes_characterization absAtWork "/x/x.cpp").2.2.1
     "\"/x/all.h.nocc-pch\"" ["/x/a.h"],
   (extractIncludes_characterization absAtWork "/x/x.cpp").2.2.2
     ["foo.o:", "/x/a.h", "\\", "/x/b.h"] (by decide)⟩

/-! ## Claim C1 -/

set_option maxRecDepth 1000000 in
/-- Claim C1 evaluated at the failing input: two sessions with the same
compiler, the same dependency list (one file, equal size and sha), and input
sources with equal basename, whose argument lists differ only in the `-I`
directory, receive different object-cache keys — the request's argument list
(into which the client parser folds the `-I`, `-iquote` and `-isystem`
directories) is hashed in full by `MakeObjCacheKey`, although its own
documentation says include paths are not taken into account. -/
theorem MakeObjCacheKey_include_path_sensitive :
    MakeObjCacheKey "g++" ["-Wall", "-I", "/home/alice/headers"]
        [⟨123, ⟨11, 22, 33, 44⟩⟩] "/home/alice/proj/some.cpp" ≠
      MakeObjCacheKey "g++" ["-Wall", "-I", "/home/bob/headers"]
        [⟨123, ⟨11, 22, 33, 44⟩⟩] "/home/bob/proj/some.cpp" ∧
    goBase "/home/alice/proj/some.cpp" = goBase "/home/bob/proj/some.cpp" := by
  refine ⟨by decide, by decide⟩

/-! ## Claim C10 -/

theorem hexDigitChar_spec (d : Nat) (hd : d < 16) :
    isHexDigit (hexDigitChar d) = true ∧ hexVal (hexDigitChar d) = d := by
  interval_cases d <;> exact ⟨by decide, by decide⟩

theorem parseHexAux_stop (rest : List Char) (acc : Nat)
    (h : ∀ c, rest.head? = some c → isHexDigit c = false) :
    parseHexAux rest acc = (acc, rest) := by
  cases rest with
  | nil => rfl
  | cons c cs => simp [parseHexAux, h c rfl]

theorem parseHexAux_digits :
    ∀ (l : List Char) (acc : Nat) (rest : List Char),
      (∀ c ∈ l, isHexDigit c = true) →
      (∀ c, rest.head? = some c → isHexDigit c = false) →
      parseHexAux (l ++ rest) acc =
        (l.foldl (fun a c => a * 16 + hexVal c) acc, rest) := by
  intro l
  induction l with
  | nil => intro acc rest _ hrest; exact parseHexAux_stop rest acc hrest
  | cons c cs ih =>
    intro acc rest hall hrest
    have hc := hall c (List.mem_cons_self _ _)
    simp only [List.cons_append, parseHexAux, hc, if_true, List.foldl_cons]
    exact ih _ rest (fun x hx => hall x (List.mem_cons_of_mem _ hx)) hrest

theorem toHexAux_all_hex :
    ∀ (n : Nat) (tail : List Char),
      (∀ c ∈ tail, isHexDigit c = true) → ∀ c ∈ toHexAux n tail, isHexDigit c = true := by
  intro n
  induction n using Nat.strong_induction_on with
  | _ n ih =>
    cases n with
    | zero =>
      intro tail htail
      simpa [toHexAux] using htail
    | succ m =>
      intro tail htail
      rw [toHexAux]
      apply ih ((m + 1) / 16) (Nat.div_lt_self (Nat.succ_pos m) (by decide))
      intro c hc
      rcases List.mem_cons.mp hc with hc | hc
      · rw [hc]
        exact (hexDigitChar_spec ((m + 1) % 16) (Nat.mod_lt _ (by decide))).1
      · exact htail c hc

theorem toHexAux_length :
    ∀ (n : Nat) (tail : List Char),
      (toHexAux n tail).length = hexLen n + tail.length := by
  intro n
  induction n using Nat.strong_induction_on with
  | _ n ih =>
    cases n with
    | zero => intro tail; simp [toHexAux, hexLen]
    | succ m =>
      intro tail
      rw [toHexAux, hexLen, ih ((m + 1) / 16) (Nat.div_lt_self (Nat.succ_pos m) (by decide))]
      simp only [List.length_cons]
      omega

theorem hexFold_toHexAux :
    ∀ (n : Nat) (tail : List Char) (acc : Nat),
      (toHexAux n tail).foldl (fun a c => a * 16 + hexVal c) acc =
        tail.foldl (fun a c => a * 16 + hexVal c) (acc * 16 ^ hexLen n + n) := by
  intro n
  induction n using Nat.strong_induction_on with
  | _ n ih =>
    cases n with
    | zero => intro tail acc; simp [toHexAux, hexLen]
    | succ m =>
      intro tail acc
      rw [toHexAux, ih ((m + 1) / 16) (Nat.div_lt_self (Nat.succ_pos m) (by decide))]
      simp only [List.foldl_cons]
      rw [(hexDigitChar_spec ((m + 1) % 16) (Nat.mod_lt _ (by decide))).2]
      congr 1
      rw [hexLen, pow_succ]
      have h2 : (m + 1) / 16 * 16 + (m + 1) % 16 = m + 1 := by omega
      calc (acc * 16 ^ hexLen ((m + 1) / 16) + (m + 1) / 16) * 16 + (m + 1) % 16
          = acc * 16 ^ hexLen ((m + 1) / 16) * 16 +
              ((m + 1) / 16 * 16 + (m + 1) % 16) := by ring
        _ = acc * (16 ^ hexLen ((m + 1) / 16) * 16) + (m + 1) := by rw [h2]; ring

theorem toHexChars_all_hex (n : Nat) : ∀ c ∈ toHexChars n, isHexDigit c = true := by
  unfold toHexChars
  split
  · intro c hc
    simp only [List.mem_singleton] at hc
    rw [hc]; decide
  · exact toHexAux_all_hex n [] (by intro c hc; cases hc)

theorem toHexChars_val (n : Nat) :
    (toHexChars n).foldl (fun a c => a * 16 + hexVal c) 0 = n := by
  unfold toHexChars
  split
  · next h => rw [h]; decide
  · rw [hexFold_toHexAux n [] 0]
    simp

theorem toHexChars_ne_nil (n : Nat) : toHexChars n ≠ [] := by
  unfold toHexChars
  split
  · exact List.cons_ne_nil _ _
  · next h =>
    intro hnil
    have := toHexAux_length n []
    rw [hnil] at this
    simp only [List.length_nil] at this
    cases n with
    | zero => exact h rfl
    | succ m => rw [hexLen] at this; omega

theorem parseHexItem_toHexChars (n : Nat) (hn : n < 2 ^ 64) (rest : List Char)
    (hrest : ∀ c, rest.head? = some c → isHexDigit c = false) :
    parseHexItem (toHexChars n ++ rest) = some (n, rest) := by
  obtain ⟨c, cs, hcs⟩ : ∃ c cs, toHexChars n = c :: cs := by
    cases h : toHexChars n with
    | nil => exact absurd h (toHexChars_ne_nil n)
    | cons c cs => exact ⟨c, cs, rfl⟩
  have hall := toHexChars_all_hex n
  rw [hcs] at hall
  have hval := toHexChars_val n
  rw [hcs] at hval
  simp only [List.foldl_cons, Nat.zero_mul, Nat.zero_add] at hval
  rw [hcs]
  simp only [List.cons_append, parseHexItem, hall c (List.mem_cons_self _ _), if_true]
  rw [parseHexAux_digits cs (hexVal c) rest
    (fun x hx => hall x (List.mem_cons_of_mem _ hx)) hrest]
  simp only [hval]
  rw [if_pos hn]

/-- Claim C10: hex round trip of the hash type — printing with
`ToLongHexString` and reparsing with `FromLongHexString` reconstructs all
four 64-bit segments; and every input that does not parse as four
dash-separated hex segments yields the all-zero value, on which `IsEmpty`
holds. -/
theorem FromLongHexString_ToLongHexString (h : SHA256)
    (h0 : h.B0_7 < 2 ^ 64) (h1 : h.B8_15 < 2 ^ 64)
    (h2 : h.B16_23 < 2 ^ 64) (h3 : h.B24_31 < 2 ^ 64) :
    SHA256.FromLongHexString (SHA256.ToLongHexString h) = h ∧
    ∀ s : List Char, parseFourHex s = none →
      (SHA256.FromLongHexString s).IsEmpty = true := by
  constructor
  · have hdash : ∀ (t : List Char) (c : Char),
        ('-' :: t).head? = some c → isHexDigit c = false := by
      intro t c hc
      simp only [List.head?_cons, Option.some_inj] at hc
      rw [← hc]; decide
    have hnil : ∀ c : Char, ([] : List Char).head? = some c → isHexDigit c = false := by
      intro c hc; cases hc
    have p1 := parseHexItem_toHexChars h.B0_7 h0 _
      (hdash (toHexChars h.B8_15 ++ '-' :: (toHexChars h.B16_23 ++ '-' :: toHexChars h.B24_31)))
    have p2 := parseHexItem_toHexChars h.B8_15 h1 _
      (hdash (toHexChars h.B16_23 ++ '-' :: toHexChars h.B24_31))
    have p3 := parseHexItem_toHexChars h.B16_23 h2 _ (hdash (toHexChars h.B24_31))
    have p4 : parseHexItem (toHexChars h.B24_31) = some (h.B24_31, []) := by
      have := parseHexItem_toHexChars h.B24_31 h3 [] hnil
      rwa [List.append_nil] at this
    have hparse : parseFourHex (SHA256.ToLongHexString h) =
        some (h.B0_7, h.B8_15, h.B16_23, h.B24_31) := by
      simp only [SHA256.ToLongHexString, parseFourHex, Option.bind_eq_bind, Option.bind,
        p1, p2, p3, p4, expectDash, Option.pure_def]
    simp only [SHA256.FromLongHexString, hparse]
  · intro s hnone
    simp only [SHA256.FromLongHexString, hnone]
    decide

/-- Witness for C10 at a concrete hash value with a zero segment. -/
theorem FromLongHexString_ToLongHexString_witness :
    SHA256.FromLongHexString (SHA256.ToLongHexString ⟨255, 0, 171, 4096⟩) =
      ⟨255, 0, 171, 4096⟩ ∧
    ∀ s : List Char, parseFourHex s = none →
      (SHA256.FromLongHexString s).IsEmpty = true :=
  FromLongHexString_ToLongHexString ⟨255, 0, 171, 4096⟩
    (by decide) (by decide) (by decide) (by decide)


/-! ## Claim C4 -/

theorem lookupClientFile_cons (n : String) (s : SHA256) (fs : List (String × SHA256))
    (name : String) :
    lookupClientFile ((n, s) :: fs) name =
      if n = name then some s else lookupClientFile fs name := by
  by_cases h : n = name <;> simp [lookupClientFile, List.find?, h]

theorem StartUsingFileInSession_conflict (fs : ClientFiles) (name : String)
    (sha v : SHA256) (hlook : lookupClientFile fs name = some v) (hne : v ≠ sha) :
    StartUsingFileInSession fs name sha = .error "sha mismatch" := by
  simp [StartUsingFileInSession, hlook, hne]

theorem StartUsingFileInSession_ok_cases (fs fs2 : ClientFiles) (name : String)
    (sha : SHA256) (hok : StartUsingFileInSession fs name sha = .ok fs2) :
    (fs2 = fs ∧ lookupClientFile fs name = some sha) ∨
    (fs2 = (name, sha) :: fs ∧ lookupClientFile fs name = none) := by
  unfold StartUsingFileInSession at hok
  cases hl : lookupClientFile fs name with
  | none =>
    rw [hl] at hok
    simp only [] at hok
    exact Or.inr ⟨(Except.ok.inj hok).symm, rfl⟩
  | some prev =>
    rw [hl] at hok
    by_cases hp : prev = sha
    · simp only [hp, if_true] at hok
      exact Or.inl ⟨(Except.ok.inj hok).symm, congrArg some hp⟩
    · simp [hp] at hok

theorem StartUsingFileInSession_preserves (fs fs2 : ClientFiles) (name : String)
    (sha : SHA256) (hok : StartUsingFileInSession fs name sha = .ok fs2) :
    ∀ n v, lookupClientFile fs n = some v → lookupClientFile fs2 n = some v := by
  intro n v hv
  rcases StartUsingFileInSession_ok_cases fs fs2 name sha hok with ⟨heq, _⟩ | ⟨heq, hnone⟩
  · rw [heq]; exact hv
  · rw [heq, lookupClientFile_cons]
    by_cases hn : name = n
    · rw [hn] at hnone; rw [hnone] at hv; cases hv
    · rw [if_neg hn]; exact hv

theorem StartUsingFileInSession_new (fs fs2 : ClientFiles) (name : String)
    (sha : SHA256) (hok : StartUsingFileInSession fs name sha = .ok fs2) :
    ∀ n v, lookupClientFile fs2 n = some v →
      lookupClientFile fs n = some v ∨ (n = name ∧ v = sha) := by
  intro n v hv
  rcases StartUsingFileInSession_ok_cases fs fs2 name sha hok with ⟨heq, _⟩ | ⟨heq, _⟩
  · rw [heq] at hv; exact Or.inl hv
  · rw [heq, lookupClientFile_cons] at hv
    by_cases hn : name = n
    · rw [if_pos hn] at hv
      exact Or.inr ⟨hn.symm, (Option.some.inj hv).symm⟩
    · rw [if_neg hn] at hv
      exact Or.inl hv

theorem StartUsingFileInSession_consistent_ok (fs : ClientFiles) (name : String)
    (sha : SHA256)
    (h : ∀ v, lookupClientFile fs name = some v → v = sha) :
    ∃ fs2, StartUsingFileInSession fs name sha = .ok fs2 := by
  unfold StartUsingFileInSession
  cases hl : lookupClientFile fs name with
  | none => exact ⟨_, rfl⟩
  | some prev =>
    simp only [h prev hl, if_true]
    exact ⟨fs, rfl⟩

theorem registerRequiredFiles_conflict :
    ∀ (req : List FileMetadata) (fs : ClientFiles) (meta : FileMetadata) (v : SHA256),
      meta ∈ req → lookupClientFile fs meta.fileName = some v → v ≠ meta.sha →
      ∃ e, registerRequiredFiles fs req = .error e := by
  intro req
  induction req with
  | nil => intro fs meta v hmem; cases hmem
  | cons m0 rest ih =>
    intro fs meta v hmem hlook hne
    rcases List.mem_cons.mp hmem with heq | hmem2
    · subst heq
      refine ⟨"sha mismatch", ?_⟩
      simp [registerRequiredFiles,
        StartUsingFileInSession_conflict fs meta.fileName meta.sha v hlook hne]
    · cases hsu : StartUsingFileInSession fs m0.fileName m0.sha with
      | error e => exact ⟨e, by simp [registerRequiredFiles, hsu]⟩
      | ok fs2 =>
        have hpres := StartUsingFileInSession_preserves fs fs2 m0.fileName m0.sha hsu
          meta.fileName v hlook
        obtain ⟨e, he⟩ := ih fs2 meta v hmem2 hpres hne
        exact ⟨e, by simp [registerRequiredFiles, hsu, he]⟩

theorem registerRequiredFiles_ok :
    ∀ (req : List FileMetadata) (fs : ClientFiles),
      (∀ meta ∈ req, ∀ v, lookupClientFile fs meta.fileName = some v → v = meta.sha) →
      (∀ m1 ∈ req, ∀ m2 ∈ req, m1.fileName = m2.fileName → m1.sha = m2.sha) →
      ∃ fs2, registerRequiredFiles fs req = .ok fs2 ∧
        ∀ n v, lookupClientFile fs2 n = some v →
          lookupClientFile fs n = some v ∨ ∃ meta ∈ req, meta.fileName = n ∧ meta.sha = v := by
  intro req
  induction req with
  | nil => intro fs _ _; exact ⟨fs, rfl, fun n v hv => Or.inl hv⟩
  | cons m0 rest ih =>
    intro fs h1 h2
    obtain ⟨fs2, hsu⟩ := StartUsingFileInSession_consistent_ok fs m0.fileName m0.sha
      (h1 m0 (List.mem_cons_self _ _))
    have h1' : ∀ meta ∈ rest, ∀ v, lookupClientFile fs2 meta.fileName = some v →
        v = meta.sha := by
      intro meta hm v hv
      rcases StartUsingFileInSession_new fs fs2 m0.fileName m0.sha hsu meta.fileName v hv
        with hold | ⟨hn, hsha⟩
      · exact h1 meta (List.mem_cons_of_mem _ hm) v hold
      · rw [hsha]
        exact h2 m0 (List.mem_cons_self _ _) meta (List.mem_cons_of_mem _ hm) hn.symm
    have h2' : ∀ m1 ∈ rest, ∀ m2 ∈ rest, m1.fileName = m2.fileName → m1.sha = m2.sha :=
      fun m1 hm1 m2 hm2 => h2 m1 (List.mem_cons_of_mem _ hm1) m2 (List.mem_cons_of_mem _ hm2)
    obtain ⟨fs3, hreg, hpost⟩ := ih fs2 h1' h2'
    refine ⟨fs3, by simp [registerRequiredFiles, hsu, hreg], ?_⟩
    intro n v hv
    rcases hpost n v hv with hv2 | ⟨meta, hm, hname, hsha⟩
    · rcases StartUsingFileInSession_new fs fs2 m0.fileName m0.sha hsu n v hv2
        with hold | ⟨hn, hs⟩
      · exact Or.inl hold
      · exact Or.inr ⟨m0, List.mem_cons_self _ _, hn.symm, hs.symm⟩
    · exact Or.inr ⟨meta, List.mem_cons_of_mem _ hm, hname, hsha⟩

/-- Claim C4: session creation fails whenever some required file's client
path is already registered with a different sha256 than the one now
advertised (the session is rejected before being registered), and succeeds
for every advertised dependency list (including the optional pch file) with
no such mismatch and no internal sha conflict. -/
theorem CreateNewSession_conflict_freedom (files : ClientFiles)
    (requiredFiles : List FileMetadata) (requiredPchFile : Option FileMetadata) :
    (∀ meta ∈ requiredFiles, ∀ v, lookupClientFile files meta.fileName = some v →
      v ≠ meta.sha →
      ∃ e, CreateNewSession files requiredFiles requiredPchFile = .error e) ∧
    ((∀ meta, (meta ∈ requiredFiles ∨ requiredPchFile = some meta) →
        ∀ v, lookupClientFile files meta.fileName = some v → v = meta.sha) →
      (∀ m1 m2, (m1 ∈ requiredFiles ∨ requiredPchFile = some m1) →
        (m2 ∈ requiredFiles ∨ requiredPchFile = some m2) →
        m1.fileName = m2.fileName → m1.sha = m2.sha) →
      ∃ fs2, CreateNewSession files requiredFiles requiredPchFile = .ok fs2) := by
  constructor
  · intro meta hmem v hlook hne
    obtain ⟨e, he⟩ := registerRequiredFiles_conflict requiredFiles files meta v hmem hlook hne
    exact ⟨e, by simp [CreateNewSession, he]⟩
  · intro h1 h2
    obtain ⟨fs2, hreg, hpost⟩ := registerRequiredFiles_ok requiredFiles files
      (fun meta hm v hv => h1 meta (Or.inl hm) v hv)
      (fun m1 hm1 m2 hm2 => h2 m1 m2 (Or.inl hm1) (Or.inl hm2))
    cases hpch : requiredPchFile with
    | none => exact ⟨fs2, by simp [CreateNewSession, hreg]⟩
    | some m =>
      obtain ⟨fs3, hsu⟩ := StartUsingFileInSession_consistent_ok fs2 m.fileName m.sha
        (by
          intro v hl
          rcases hpost m.fileName v hl with hold | ⟨meta, hm, hname, hsha⟩
          · exact h1 m (Or.inr hpch) v hold
          · exact hsha.symm.trans (h2 meta m (Or.inl hm) (Or.inr hpch) hname))
      exact ⟨fs3, by simp [CreateNewSession, hreg, hsu]⟩

/-- Witness for C4: a conflicting advertisement for `a.h` is rejected,
while a two-file list plus pch sidecar with consistent hashes is accepted. -/
theorem CreateNewSession_conflict_freedom_witness :
    (∃ e, CreateNewSession [("a.h", ⟨1, 0, 0, 0⟩)]
        [⟨"a.h", 10, ⟨2, 0, 0, 0⟩⟩] none = .error e) ∧
    (∃ fs2, CreateNewSession []
        [⟨"a.h", 10, ⟨1, 0, 0, 0⟩⟩, ⟨"b.h", 20, ⟨2, 0, 0, 0⟩⟩]
        (some ⟨"all.h.nocc-pch", 5, ⟨3, 0, 0, 0⟩⟩) = .ok fs2) := by
  constructor
  · exact (CreateNewSession_conflict_freedom [("a.h", ⟨1, 0, 0, 0⟩)]
      [⟨"a.h", 10, ⟨2, 0, 0, 0⟩⟩] none).1
      ⟨"a.h", 10, ⟨2, 0, 0, 0⟩⟩ (List.mem_cons_self _ _) ⟨1, 0, 0, 0⟩
      (by decide) (by decide)
  · apply (CreateNewSession_conflict_freedom []
      [⟨"a.h", 10, ⟨1, 0, 0, 0⟩⟩, ⟨"b.h", 20, ⟨2, 0, 0, 0⟩⟩]
      (some ⟨"all.h.nocc-pch", 5, ⟨3, 0, 0, 0⟩⟩)).2
    · intro meta _ v hv
      simp [lookupClientFile, List.find?] at hv
    · intro m1 m2 hm1 hm2 hname
      have hc1 : m1 = ⟨"a.h", 10, ⟨1, 0, 0, 0⟩⟩ ∨ m1 = ⟨"b.h", 20, ⟨2, 0, 0, 0⟩⟩ ∨
          m1 = ⟨"all.h.nocc-pch", 5, ⟨3, 0, 0, 0⟩⟩ := by
        rcases hm1 with hm1 | hm1
        · rcases List.mem_cons.mp hm1 with h | h
          · exact Or.inl h
          · exact Or.inr (Or.inl (by simpa using h))
        · exact Or.inr (Or.inr (Option.some.inj hm1).symm)
      have hc2 : m2 = ⟨"a.h", 10, ⟨1, 0, 0, 0⟩⟩ ∨ m2 = ⟨"b.h", 20, ⟨2, 0, 0, 0⟩⟩ ∨
          m2 = ⟨"all.h.nocc-pch", 5, ⟨3, 0, 0, 0⟩⟩ := by
        rcases hm2 with hm2 | hm2
        · rcases List.mem_cons.mp hm2 with h | h
          · exact Or.inl h
          · exact Or.inr (Or.inl (by simpa using h))
        · exact Or.inr (Or.inr (Option.some.inj hm2).symm)
      rcases hc1 with h1 | h1 | h1 <;> rcases hc2 with h2 | h2 | h2 <;>
        subst h1 <;> subst h2 <;> first | rfl | (exact absurd hname (by decide))
